import Mathlib

/-!
# Verification of the pr-agent platform layer and markdown-wrapper sanitizer

This file gives a shallow embedding, in Lean 4, of the core logic of the
`pr_agent` repository:

* `strip_markdown_wrapper` (from `src/pr_agent/utils/text_cleanup.py`): the
  sanitizer that removes at most one outermost markdown code-fence wrapper
  from LLM-produced review text.  Python strings are modelled as `List Char`;
  Python's `str.strip()` and the regular expressions of the source are
  translated into executable list functions below.  The three regular
  expressions used by the source are
    - `^```(?:markdown|md)?\s*\n`   (opening-fence check, `re.match`),
    - `\n```\s*$`                    (closing-fence check, `re.search`),
    - `^```(?:markdown|md)?\s*\n(.*)\n```\s*$` with `re.DOTALL`
      (greedy extraction of the content between the opening fence and the
      last closing fence, `re.match`).
  Because the text has already been stripped of surrounding whitespace when
  these patterns run, the closing fence of the extraction pattern is forced
  to be the final four characters `"\n```"`, and the greedy/backtracking
  behaviour of the opening `\s*\n` reduces to: the match succeeds iff the
  first newline of the whitespace run that follows the fence marker starts
  no later than that final closing newline, and the captured group (after
  the final `.strip()`) does not depend on which newline of the run the
  engine settles on.  The embedding below implements exactly this
  deterministic reading.

* the platform factory `get_platform` and `GitPlatform.get_platform_name`
  (from `src/pr_agent/platforms/__init__.py` and `base.py`),

* the field normalisation performed by `GitLabPlatform.get_pr_info` and the
  passthrough performed by `GitHubPlatform.get_pr_info`,

* the authentication set-up of `GitLabPlatform.setup_auth` and
  `GitHubPlatform.setup_auth` (from `agent/platforms/gitlab.py` and
  `agent/platforms/github.py`), modelled as functions from the relevant
  environment variables and CLI outcomes to the list of external CLI calls
  performed together with the normal/raising result.
-/

namespace PRAgent

/-! ## Python whitespace, `str.strip`, and basic scanning functions -/

/-- The code points that Python's `str.strip()` removes and that `\s`
matches in a `str` regular expression (the two sets coincide in CPython):
the ASCII whitespace characters together with the Unicode
white-space/separator characters. -/
def pyWsCodes : List Nat :=
  [0x9, 0xa, 0xb, 0xc, 0xd, 0x1c, 0x1d, 0x1e, 0x1f, 0x20, 0x85, 0xa0,
   0x1680, 0x2000, 0x2001, 0x2002, 0x2003, 0x2004, 0x2005, 0x2006, 0x2007,
   0x2008, 0x2009, 0x200a, 0x2028, 0x2029, 0x202f, 0x205f, 0x3000]

/-- Whether a character is Python whitespace (`str.isspace`, regex `\s`). -/
def isPySpace (c : Char) : Bool :=
  pyWsCodes.contains c.toNat

/-- Python's `str.strip()`: remove leading and trailing whitespace. -/
def pystrip (l : List Char) : List Char :=
  ((l.dropWhile isPySpace).reverse.dropWhile isPySpace).reverse

/-- Literal-prefix test (regex literal at the current position, or
`str.startswith`). -/
def startsWithLit : List Char → List Char → Bool
  | [], _ => true
  | _ :: _, [] => false
  | p :: ps, c :: cs => p == c && startsWithLit ps cs

/-- Literal-suffix test (`str.endswith`). -/
def endsWithLit (p l : List Char) : Bool :=
  startsWithLit p.reverse l.reverse

/-- Whether the maximal whitespace prefix of `l` contains a newline; this is
exactly when the pattern `\s*\n` matches at the start of `l`. -/
def hasWsNl : List Char → Bool
  | [] => false
  | c :: r => if c = '\n' then true else if isPySpace c then hasWsNl r else false

/-- The position just after the first newline of the maximal whitespace
prefix of `l` (`none` when `\s*\n` does not match at the start of `l`). -/
def firstNlEnd : List Char → Option Nat
  | [] => none
  | c :: r =>
      if c = '\n' then some 1
      else if isPySpace c then (firstNlEnd r).map (· + 1) else none

/-- The number of characters that the alternation `(?:markdown|md)?` consumes
right after the three opening backticks, given that the remainder must then
match `\s*\n`; `none` when no alternative allows `\s*\n` to match.  The
alternatives are tried in the regex engine's order: `markdown`, then `md`,
then the empty option. -/
def langLen (l : List Char) : Option Nat :=
  if startsWithLit ("markdown".data) l && hasWsNl (l.drop 8) then some 8
  else if startsWithLit ("md".data) l && hasWsNl (l.drop 2) then some 2
  else if hasWsNl l then some 0
  else none

/-- `re.match(r"^```(?:markdown|md)?\s*\n", t)` as a Boolean. -/
def openMatch (t : List Char) : Bool :=
  startsWithLit ("```".data) t && (langLen (t.drop 3)).isSome

/-- `re.search(r"\n```\s*$", t)` as a Boolean: some suffix of `t` consists of
a newline, three backticks and trailing whitespace. -/
def closeMatch (t : List Char) : Bool :=
  startsWithLit ['`', '`', '`', '\n'] (t.reverse.dropWhile isPySpace)

/-- The body of `strip_markdown_wrapper` after the initial
`text = text.strip()` normalisation: the two fence checks followed by the
greedy extraction `^```(?:markdown|md)?\s*\n(.*)\n```\s*$` (under `DOTALL`)
and the final `content.strip()`.  `t` is the already-stripped text, so a
successful `closeMatch` forces `t` to end in `"\n```"` and the extraction
yields the slice of `t` between the first newline after the fence marker and
that final closing fence. -/
def sanitizeStripped (t : List Char) : List Char :=
  if openMatch t then
    if closeMatch t then
      match langLen (t.drop 3) with
      | none => t
      | some k =>
          match firstNlEnd (t.drop (3 + k)) with
          | none => t
          | some p =>
              if 3 + k + p ≤ t.length - 4 then
                pystrip ((t.drop (3 + k + p)).take (t.length - 4 - (3 + k + p)))
              else t
    else t
  else t

/-- `strip_markdown_wrapper` from `src/pr_agent/utils/text_cleanup.py`,
restricted to string input (`strip_markdown_wrapper_py` below adds the
non-string guard): empty input is returned unchanged, otherwise the input is
stripped and the wrapper-removal logic runs on the stripped text. -/
def strip_markdown_wrapper (text : List Char) : List Char :=
  if text = [] then text
  else sanitizeStripped (pystrip text)

-- sanity checks against the behaviour of the Python source
example : strip_markdown_wrapper ("```markdown\nfoo\n```".data) = "foo".data := by decide
example : strip_markdown_wrapper ("```\nfoo\n```".data) = "foo".data := by decide
example : strip_markdown_wrapper ("```md\nfoo\n```".data) = "foo".data := by decide
example : strip_markdown_wrapper ("plain text".data) = "plain text".data := by decide
example : strip_markdown_wrapper ("```\n```".data) = "```\n```".data := by decide
example : strip_markdown_wrapper ("```\n\n```".data) = [] := by decide
example : strip_markdown_wrapper ("``` \nfoo\n```".data) = "foo".data := by decide
example : strip_markdown_wrapper ("``` \n```".data) = "``` \n```".data := by decide
example : strip_markdown_wrapper ("```mdx\nfoo\n```".data) = "```mdx\nfoo\n```".data := by decide
example : strip_markdown_wrapper ("  ```markdown\n## Review\n```  ".data) = "## Review".data := by decide
example : strip_markdown_wrapper ("```markdown\n## Review\nLooks good".data)
    = "```markdown\n## Review\nLooks good".data := by decide
example : strip_markdown_wrapper ("```\nfoo\n```\nbar\n```".data) = "foo\n```\nbar".data := by decide

/-! ## Spec-side description of a complete wrapper

The following definitions follow the words of the specification (§4.2,
amended only by the non-overlap condition that the code forces): a complete
wrapper consists of three backticks, optionally the literal word `markdown`
or `md`, optional blank (non-newline) whitespace, a line break, the content,
a line break, and three closing backticks.  They are used to compare the
code's behaviour against the specified one. -/

/-- Spec-side: `t` decomposes as the complete wrapper
```lang a\n mid \n``` `` where `lang` is `markdown`, `md` or empty and `a`
is blank whitespace containing no newline.  When such a decomposition
exists it is unique. -/
def WrapDecomp (t lang a mid : List Char) : Prop :=
  (lang = "markdown".data ∨ lang = "md".data ∨ lang = []) ∧
  (∀ c ∈ a, isPySpace c = true ∧ c ≠ '\n') ∧
  t = ("```".data) ++ lang ++ a ++ '\n' :: (mid ++ '\n' :: ("```".data))

instance (t lang a mid : List Char) : Decidable (WrapDecomp t lang a mid) := by
  unfold WrapDecomp; infer_instance

/-- Spec-side, executable: does some `a ++ '\n' :: mid ++ "\n```"` split of
`l` exist, with `a` blank non-newline whitespace? -/
def specTail (l : List Char) : Bool :=
  let a := l.takeWhile (fun c => isPySpace c && !(c == '\n'))
  let r := l.drop a.length
  startsWithLit ['\n'] r && endsWithLit ('\n' :: ("```".data)) (r.drop 1)

/-- Spec-side, executable: `t` is a complete wrapper, i.e. some
`WrapDecomp t lang a mid` holds (`specWrappedB_iff` below). -/
def specWrappedB (t : List Char) : Bool :=
  startsWithLit ("```".data) t &&
    ((startsWithLit ("markdown".data) (t.drop 3) && specTail (t.drop 11)) ||
     (startsWithLit ("md".data) (t.drop 3) && specTail (t.drop 5)) ||
     specTail (t.drop 3))

/-- One list occurring contiguously inside another. -/
def SubSegment (a b : List Char) : Prop :=
  ∃ pre post, b = pre ++ a ++ post

/-- A Python value reaching the sanitizer: either a string or some
non-string value (carrying only its truthiness, which is all the guard
`if not text or not isinstance(text, str)` can observe). -/
inductive PyVal where
  | str : List Char → PyVal
  | nonStr : Bool → PyVal
  deriving DecidableEq

/-- The full `strip_markdown_wrapper` entry point: the guard
`if not text or not isinstance(text, str): return text` returns every
non-string value unchanged (falsy ones through `not text`, truthy ones
through the `isinstance` test), and the empty string is returned unchanged
by the same guard. -/
def strip_markdown_wrapper_py : PyVal → PyVal
  | PyVal.nonStr b => PyVal.nonStr b
  | PyVal.str s => PyVal.str (strip_markdown_wrapper s)

/-! ## Platform layer: factory, adapters, authentication

From `src/pr_agent/platforms/__init__.py`, `base.py`, `gitlab.py` and the
`agent/platforms` variants of `github.py`/`gitlab.py`.  CLI-backed effects
are modelled by returning the list of external CLI calls performed together
with the normal result or raised error. -/

/-- The two adapter variants constructed by the factory. -/
inductive Platform where
  | github
  | gitlab
  deriving DecidableEq

/-- `self.__class__.__name__` of each adapter class. -/
def className : Platform → List Char
  | Platform.github => "GitHubPlatform".data
  | Platform.gitlab => "GitLabPlatform".data

/-- Fuel-indexed helper for `str.replace(pat, '')`: at each position, if
`pat` starts here (and is nonempty) delete it and continue after it,
otherwise keep the character.  The fuel only bounds recursion depth; with
`fuel ≥ length` it never runs out. -/
def replaceDropAux (pat : List Char) : Nat → List Char → List Char
  | _, [] => []
  | 0, l => l
  | fuel + 1, c :: rest =>
      if startsWithLit pat (c :: rest) = true ∧ pat ≠ [] then
        replaceDropAux pat fuel ((c :: rest).drop pat.length)
      else
        c :: replaceDropAux pat fuel rest

/-- Python `s.replace(pat, '')`: delete all leftmost non-overlapping
occurrences of `pat`. -/
def replaceDrop (pat l : List Char) : List Char :=
  replaceDropAux pat l.length l

/-- `GitPlatform.get_platform_name` from `base.py`:
`self.__class__.__name__.replace('Platform', '')`. -/
def get_platform_name (p : Platform) : List Char :=
  replaceDrop ("Platform".data) (className p)

/-- Python `str.lower()` (ASCII case mapping; the provider identifiers the
factory compares against are pure ASCII). -/
def pyLower (l : List Char) : List Char :=
  l.map Char.toLower

/-- The factory's failure: the `ValueError("Unsupported provider: ...")`
raised by `get_platform`, the spec's `UnsupportedProviderError`. -/
inductive ReviewError where
  | unsupportedProvider : List Char → ReviewError
  deriving DecidableEq

/-- `get_platform` from `platforms/__init__.py`: lower-case the provider
name, look it up in the `{'github': ..., 'gitlab': ...}` table, raise on a
miss. -/
def get_platform (provider : List Char) : Except ReviewError Platform :=
  if pyLower provider = "github".data then Except.ok Platform.github
  else if pyLower provider = "gitlab".data then Except.ok Platform.gitlab
  else Except.error (ReviewError.unsupportedProvider provider)

/-- The `author` object of a GitLab MR JSON payload. -/
structure GitLabAuthorJson where
  username : Option (List Char)
  deriving DecidableEq

/-- A parsed GitLab `glab mr view -F json` payload, restricted to the keys
`GitLabPlatform.get_pr_info` reads; `none` models an absent key. -/
structure GitLabMRJson where
  title : Option (List Char)
  description : Option (List Char)
  author : Option GitLabAuthorJson
  source_branch : Option (List Char)
  target_branch : Option (List Char)
  deriving DecidableEq

/-- The normalized record (the spec's `PullRequestInfo`).  The source
returns a dict with keys `title`, `body`, `author.login`, `headRefName`,
`baseRefName`; the spec names these `title`, `body`, `author_login`,
`source_branch`, `target_branch` respectively. -/
structure PullRequestInfo where
  title : List Char
  body : List Char
  author_login : List Char
  source_branch : List Char
  target_branch : List Char
  deriving DecidableEq

/-- `GitLabPlatform.get_pr_info`'s normalisation step: each output field is
`mr_data.get(key, '')`, with the author login read as
`mr_data.get('author', {}).get('username', '')`. -/
def gitlab_get_pr_info (mr : GitLabMRJson) : PullRequestInfo :=
  { title := mr.title.getD []
    body := mr.description.getD []
    author_login := ((mr.author.getD ⟨none⟩).username).getD []
    source_branch := mr.source_branch.getD []
    target_branch := mr.target_branch.getD [] }

/-- The `author` object of a GitHub PR JSON payload. -/
structure GitHubAuthorJson where
  login : Option (List Char)
  deriving DecidableEq

/-- A parsed GitHub `gh pr view --json ...` payload, restricted to the five
requested keys; `none` models an absent key. -/
structure GitHubPRJson where
  title : Option (List Char)
  body : Option (List Char)
  author : Option GitHubAuthorJson
  headRefName : Option (List Char)
  baseRefName : Option (List Char)
  deriving DecidableEq

/-- `GitHubPlatform.get_pr_info` (pr_agent variant) parses the CLI's JSON
reply and returns it unchanged (`return json.loads(result.stdout)`): no
renaming and no default substitution is performed by the adapter. -/
def github_get_pr_info (payload : GitHubPRJson) : GitHubPRJson :=
  payload

/-- Python truthiness of `os.getenv(...)`: `None` and the empty string are
falsy. -/
def envTruthy : Option (List Char) → Bool
  | none => false
  | some s => !s.isEmpty

/-- External calls the GitLab adapter's `setup_auth` can issue. -/
inductive GlabCall where
  | authLogin : List Char → List Char → GlabCall
  | authStatus : GlabCall
  deriving DecidableEq

/-- `subprocess.CalledProcessError` from a `check=True` call. -/
inductive PyError where
  | calledProcessError : PyError
  deriving DecidableEq

/-- The environment variables `GitLabPlatform.setup_auth` reads. -/
structure GitLabAuthEnv where
  gitlab_token : Option (List Char)
  ci_server_host : Option (List Char)
  deriving DecidableEq

/-- `GitLabPlatform.setup_auth` from `agent/platforms/gitlab.py`: with a
truthy `GITLAB_TOKEN` it runs exactly
`glab auth login --token <token> --hostname <CI_SERVER_HOST or gitlab.com>`
(under `check=True`, whose success is the oracle `loginOk`); otherwise it
only logs and returns, performing no verification.  The result is the list
of issued CLI calls together with the normal/raising outcome. -/
def gitlab_setup_auth (env : GitLabAuthEnv) (loginOk : Bool) :
    List GlabCall × Except PyError Unit :=
  if envTruthy env.gitlab_token then
    ([GlabCall.authLogin (env.gitlab_token.getD [])
        (env.ci_server_host.getD ("gitlab.com".data))],
      if loginOk then Except.ok () else Except.error PyError.calledProcessError)
  else
    ([], Except.ok ())

/-- External calls the GitHub adapter's `setup_auth` can issue. -/
inductive GhCall where
  | authStatus : GhCall
  deriving DecidableEq

/-- Outcome of `subprocess.run(['gh','auth','status'], check=False)`. -/
inductive GhStatusOutcome where
  | exitZero
  | exitNonZero
  | notInstalled
  deriving DecidableEq

/-- The `_auth_method` recorded by a successful `setup_auth`. -/
inductive AuthMethod where
  | token
  | cli
  deriving DecidableEq

/-- The `RuntimeError`s `GitHubPlatform.setup_auth` can raise (the spec's
`AuthenticationUnavailable`: no credential and no session confirmed). -/
inductive GhAuthError where
  | noAuthAvailable : GhAuthError
  | cliNotInstalled : GhAuthError
  deriving DecidableEq

/-- `GitHubPlatform.setup_auth` from `agent/platforms/github.py`: a truthy
`GH_TOKEN` is preferred (recorded as method `token`, no CLI call); otherwise
`gh auth status` is consulted and the call succeeds with method `cli` iff it
exits zero, raising a `RuntimeError` otherwise. -/
def github_setup_auth (gh_token : Option (List Char)) (status : GhStatusOutcome) :
    List GhCall × Except GhAuthError AuthMethod :=
  if envTruthy gh_token then
    ([], Except.ok AuthMethod.token)
  else
    ([GhCall.authStatus],
      match status with
      | GhStatusOutcome.exitZero => Except.ok AuthMethod.cli
      | GhStatusOutcome.exitNonZero => Except.error GhAuthError.noAuthAvailable
      | GhStatusOutcome.notInstalled => Except.error GhAuthError.cliNotInstalled)

example : specWrappedB ("```markdown\nfoo\n```".data) = true := by decide
example : specWrappedB ("```\n```".data) = false := by decide
example : specWrappedB ("``` \n```".data) = false := by decide
example : specWrappedB ("```\n\n```".data) = true := by decide
example : specWrappedB ("foo".data) = false := by decide
example : get_platform_name Platform.github = "GitHub".data := by decide
example : get_platform_name Platform.gitlab = "GitLab".data := by decide

/-! ## Basic lemmas about the scanning functions -/

theorem startsWithLit_append (p r : List Char) :
    startsWithLit p (p ++ r) = true := by
  induction p with
  | nil => rfl
  | cons c cs ih => simp [startsWithLit, ih]

theorem startsWithLit_eq_append {p l : List Char}
    (h : startsWithLit p l = true) : l = p ++ l.drop p.length := by
  induction p generalizing l with
  | nil => simp
  | cons c cs ih =>
      cases l with
      | nil => simp [startsWithLit] at h
      | cons d ds =>
          simp only [startsWithLit, Bool.and_eq_true, beq_iff_eq] at h
          obtain ⟨rfl, h2⟩ := h
          simpa using ih h2

theorem endsWithLit_eq_append {p l : List Char}
    (h : endsWithLit p l = true) : ∃ y, l = y ++ p := by
  unfold endsWithLit at h
  have h2 := startsWithLit_eq_append h
  refine ⟨(l.reverse.drop p.reverse.length).reverse, ?_⟩
  have := congrArg List.reverse h2
  simpa using this

theorem endsWithLit_append (y p : List Char) :
    endsWithLit p (y ++ p) = true := by
  unfold endsWithLit
  simpa using startsWithLit_append p.reverse y.reverse

/-- A run of blank (non-newline) whitespace followed by a newline makes
`\s*\n` match. -/
theorem hasWsNl_ws_append {a : List Char}
    (ha : ∀ c ∈ a, isPySpace c = true ∧ c ≠ '\n') (r : List Char) :
    hasWsNl (a ++ '\n' :: r) = true := by
  induction a with
  | nil => simp [hasWsNl]
  | cons c cs ih =>
      obtain ⟨h1, h2⟩ := ha c (by simp)
      simp only [List.cons_append, hasWsNl, h1, if_true, if_neg h2]
      exact ih fun d hd => ha d (by simp [hd])

/-- Position of the newline ending the initial whitespace run. -/
theorem firstNlEnd_ws_append {a : List Char}
    (ha : ∀ c ∈ a, isPySpace c = true ∧ c ≠ '\n') (r : List Char) :
    firstNlEnd (a ++ '\n' :: r) = some (a.length + 1) := by
  induction a with
  | nil => simp [firstNlEnd]
  | cons c cs ih =>
      obtain ⟨h1, h2⟩ := ha c (by simp)
      have ih' := ih fun d hd => ha d (by simp [hd])
      simp [firstNlEnd, h1, h2, ih']

/-- Inverse of `firstNlEnd`: a `some` answer exhibits the whitespace run and
the newline it ends in. -/
theorem firstNlEnd_eq_some {l : List Char} {p : Nat}
    (h : firstNlEnd l = some p) :
    ∃ a r, l = a ++ '\n' :: r ∧ p = a.length + 1 ∧
      ∀ c ∈ a, isPySpace c = true ∧ c ≠ '\n' := by
  induction l generalizing p with
  | nil => simp [firstNlEnd] at h
  | cons c cs ih =>
      by_cases hc : c = '\n'
      · subst hc
        simp [firstNlEnd] at h
        exact ⟨[], cs, by simp, by simp only [List.length_nil]; omega, by simp⟩
      · by_cases hw : isPySpace c
        · simp only [firstNlEnd, if_neg hc, hw, if_true] at h
          cases hrec : firstNlEnd cs with
          | none => rw [hrec] at h; simp at h
          | some q =>
              rw [hrec] at h
              simp only [Option.map_some', Option.some.injEq] at h
              obtain ⟨a, r, rfl, rfl, hmem⟩ := ih hrec
              refine ⟨c :: a, r, by simp, by simp only [List.length_cons]; omega, ?_⟩
              intro d hd
              rcases List.mem_cons.1 hd with rfl | hd'
              · exact ⟨hw, hc⟩
              · exact hmem d hd'
        · simp only [firstNlEnd, if_neg hc, hw] at h
          simp at h

/-- `takeWhile` over an explicit run followed by a failing element. -/
theorem takeWhile_run {p : Char → Bool} {a : List Char} {b : Char}
    (ha : ∀ c ∈ a, p c = true) (hb : p b = false) (r : List Char) :
    (a ++ b :: r).takeWhile p = a := by
  induction a with
  | nil => simp [List.takeWhile, hb]
  | cons c cs ih =>
      have h1 := ha c (by simp)
      have ih' := ih fun d hd => ha d (by simp [hd])
      simp [List.takeWhile_cons, h1, ih']

/-- The head surviving a `dropWhile` refutes the predicate. -/
theorem dropWhile_head_false {p : Char → Bool} :
    ∀ {l : List Char} {c : Char}, (l.dropWhile p).head? = some c → p c = false := by
  intro l
  induction l with
  | nil => intro c h; simp [List.dropWhile] at h
  | cons d ds ih =>
      intro c h
      by_cases hd : p d
      · exact ih (by simpa [List.dropWhile, hd] using h)
      · simp only [List.dropWhile, hd, Bool.false_eq_true, if_false,
          List.head?_cons, Option.some.injEq] at h
        subst h
        exact Bool.eq_false_iff.2 hd

theorem dropWhile_eq_self_of_head {p : Char → Bool} {l : List Char} {c : Char}
    (hc : l.head? = some c) (hpc : p c = false) : l.dropWhile p = l := by
  cases l with
  | nil => rfl
  | cons d ds =>
      simp only [List.head?_cons, Option.some.injEq] at hc
      subst hc
      simp [List.dropWhile, hpc]

/-- `str.strip` is the identity on a string with no leading and no trailing
whitespace. -/
theorem pystrip_eq_self {l : List Char}
    (h1 : ∀ c, l.head? = some c → isPySpace c = false)
    (h2 : ∀ c, l.getLast? = some c → isPySpace c = false) :
    pystrip l = l := by
  have h1' : l.dropWhile isPySpace = l := by
    cases l with
    | nil => rfl
    | cons d ds => exact dropWhile_eq_self_of_head List.head?_cons (h1 d List.head?_cons)
  have h2' : l.reverse.dropWhile isPySpace = l.reverse := by
    cases hrev : l.reverse with
    | nil => rfl
    | cons e es =>
        have hlast : l.getLast? = some e := by
          rw [← List.head?_reverse, hrev, List.head?_cons]
        exact dropWhile_eq_self_of_head List.head?_cons (h2 e hlast)
  unfold pystrip
  rw [h1', h2', List.reverse_reverse]

/-- The head of a stripped string is not whitespace. -/
theorem pystrip_head_false {l : List Char} {c : Char}
    (h : (pystrip l).head? = some c) : isPySpace c = false := by
  unfold pystrip at h
  rw [List.head?_reverse] at h
  set Y := (l.dropWhile isPySpace).reverse.dropWhile isPySpace with hY
  have hYne : Y ≠ [] := by
    intro hnil
    rw [hnil] at h
    simp at h
  have hsplit : (l.dropWhile isPySpace).reverse
      = (l.dropWhile isPySpace).reverse.takeWhile isPySpace ++ Y :=
    (List.takeWhile_append_dropWhile isPySpace _).symm
  have hlast : Y.getLast? = (l.dropWhile isPySpace).reverse.getLast? := by
    conv_rhs => rw [hsplit]
    exact (List.getLast?_append_of_ne_nil _ hYne).symm
  rw [h, List.getLast?_reverse] at hlast
  exact dropWhile_head_false hlast.symm

/-- The last character of a stripped string is not whitespace. -/
theorem pystrip_getLast_false {l : List Char} {c : Char}
    (h : (pystrip l).getLast? = some c) : isPySpace c = false := by
  unfold pystrip at h
  rw [List.getLast?_reverse] at h
  exact dropWhile_head_false h

/-- `str.strip` is idempotent. -/
theorem pystrip_idem (l : List Char) : pystrip (pystrip l) = pystrip l :=
  pystrip_eq_self (fun _ h => pystrip_head_false h)
    (fun _ h => pystrip_getLast_false h)

theorem SubSegment.refl (a : List Char) : SubSegment a a :=
  ⟨[], [], by simp⟩

theorem SubSegment.trans {a b c : List Char}
    (h1 : SubSegment a b) (h2 : SubSegment b c) : SubSegment a c := by
  obtain ⟨p1, q1, rfl⟩ := h1
  obtain ⟨p2, q2, rfl⟩ := h2
  exact ⟨p2 ++ p1, q1 ++ q2, by simp⟩

/-- Stripping only deletes characters at the two ends. -/
theorem pystrip_subSegment (l : List Char) : SubSegment (pystrip l) l := by
  refine ⟨l.takeWhile isPySpace,
    ((l.dropWhile isPySpace).reverse.takeWhile isPySpace).reverse, ?_⟩
  have hZ : l.dropWhile isPySpace
      = pystrip l ++ ((l.dropWhile isPySpace).reverse.takeWhile isPySpace).reverse := by
    conv_lhs =>
      rw [← List.reverse_reverse (l.dropWhile isPySpace),
        ← List.takeWhile_append_dropWhile isPySpace (l.dropWhile isPySpace).reverse]
    rw [List.reverse_append]
    rfl
  conv_lhs => rw [← List.takeWhile_append_dropWhile isPySpace l, hZ]
  rw [List.append_assoc]

/-- A `drop`/`take` slice occurs contiguously inside the original list. -/
theorem slice_subSegment (l : List Char) (i n : Nat) :
    SubSegment ((l.drop i).take n) l := by
  refine ⟨l.take i, (l.drop i).drop n, ?_⟩
  rw [List.append_assoc, List.take_append_drop, List.take_append_drop]

/-! ## The behaviour of the fence-marker scan on a decomposed wrapper -/

theorem ws_ne_m {c : Char} (h : isPySpace c = true) : ('m' == c) = false := by
  cases hc : ('m' == c) with
  | false => rfl
  | true =>
      have hcm : c = 'm' := (beq_iff_eq.1 hc).symm
      rw [hcm] at h
      exact absurd h (by decide)

theorem startsWithLit_markdown_md (x : List Char) :
    startsWithLit ("markdown".data) (("md".data) ++ x) = false := by
  simp [startsWithLit]

/-- On the suffix following the three opening backticks of a complete
wrapper, the `(?:markdown|md)?` alternation consumes exactly the wrapper's
language word. -/
theorem langLen_decomp {lang a : List Char} (r : List Char)
    (hlang : lang = "markdown".data ∨ lang = "md".data ∨ lang = [])
    (ha : ∀ c ∈ a, isPySpace c = true ∧ c ≠ '\n') :
    langLen (lang ++ (a ++ '\n' :: r)) = some lang.length := by
  have hws : hasWsNl (a ++ '\n' :: r) = true := hasWsNl_ws_append ha r
  rcases hlang with rfl | rfl | rfl
  · simp [langLen, startsWithLit, hws]
  · simp [langLen, startsWithLit, hws]
  · have h1 : startsWithLit ['m', 'a', 'r', 'k', 'd', 'o', 'w', 'n'] (a ++ '\n' :: r) = false := by
      cases a with
      | nil => simp [startsWithLit]
      | cons c a' =>
          have hm : ('m' == c) = false := ws_ne_m (ha c (by simp)).1
          simp [startsWithLit, hm]
    have h2 : startsWithLit ['m', 'd'] (a ++ '\n' :: r) = false := by
      cases a with
      | nil => simp [startsWithLit]
      | cons c a' =>
          have hm : ('m' == c) = false := ws_ne_m (ha c (by simp)).1
          simp [startsWithLit, hm]
    simp [langLen, h1, h2, hws]

/-! ## Core characterisation of `strip_markdown_wrapper` -/

/-- Positive case: when the stripped input is a complete wrapper around
`mid`, the sanitizer returns `mid` stripped of surrounding whitespace. -/
theorem sanitize_wrap {text lang a mid : List Char}
    (h : WrapDecomp (pystrip text) lang a mid) :
    strip_markdown_wrapper text = pystrip mid := by
  obtain ⟨hlang, ha, ht⟩ := h
  have h3 : ("```".data).length = 3 := rfl
  have htne : text ≠ [] := by
    intro h0
    rw [h0] at ht
    have ht' : (("```".data ++ lang ++ a) ++ '\n' :: (mid ++ '\n' :: ("```".data)))
        = ([] : List Char) := ht.symm
    simpa using (List.append_eq_nil.1 ht').2
  have ht1 : pystrip text
      = ("```".data) ++ (lang ++ (a ++ '\n' :: (mid ++ '\n' :: ("```".data)))) := by
    rw [ht]; simp [List.append_assoc]
  have ht2 : pystrip text
      = ("```".data ++ lang) ++ (a ++ '\n' :: (mid ++ '\n' :: ("```".data))) := by
    rw [ht]; simp [List.append_assoc]
  have ht3 : pystrip text
      = (("```".data ++ lang) ++ a ++ ['\n'] ++ mid) ++ ('\n' :: ("```".data)) := by
    rw [ht]; simp [List.append_assoc]
  have ht4 : pystrip text
      = (("```".data ++ lang) ++ a ++ ['\n']) ++ (mid ++ '\n' :: ("```".data)) := by
    rw [ht]; simp [List.append_assoc]
  have hdrop3 : (pystrip text).drop 3
      = lang ++ (a ++ '\n' :: (mid ++ '\n' :: ("```".data))) := by
    rw [ht1, ← h3, List.drop_left]
  have hlang' : langLen ((pystrip text).drop 3) = some lang.length := by
    rw [hdrop3]; exact langLen_decomp _ hlang ha
  have hstart : startsWithLit ("```".data) (pystrip text) = true := by
    rw [ht1]; exact startsWithLit_append _ _
  have hopen : openMatch (pystrip text) = true := by
    simp [openMatch, hstart, hlang']
  have hclose : closeMatch (pystrip text) = true := by
    have hrev : (pystrip text).reverse
        = '`' :: '`' :: '`' :: '\n' ::
            (("```".data ++ lang) ++ a ++ ['\n'] ++ mid).reverse := by
      rw [ht3, List.reverse_append]
      rfl
    unfold closeMatch
    rw [hrev, dropWhile_eq_self_of_head List.head?_cons (by decide)]
    exact startsWithLit_append ['`', '`', '`', '\n'] _
  have hdrop3k : (pystrip text).drop (3 + lang.length)
      = a ++ '\n' :: (mid ++ '\n' :: ("```".data)) := by
    have hL : ("```".data ++ lang).length = 3 + lang.length := by
      simp [List.length_append, h3]
      omega
    rw [ht2, ← hL, List.drop_left]
  have hfst : firstNlEnd ((pystrip text).drop (3 + lang.length))
      = some (a.length + 1) := by
    rw [hdrop3k]; exact firstNlEnd_ws_append ha _
  have hlen := congrArg List.length ht
  simp only [List.length_append, List.length_cons, h3] at hlen
  have hstart_le : 3 + lang.length + (a.length + 1) ≤ (pystrip text).length - 4 := by
    omega
  have hdropstart : (pystrip text).drop (3 + lang.length + (a.length + 1))
      = mid ++ '\n' :: ("```".data) := by
    have hP : (("```".data ++ lang) ++ a ++ ['\n']).length
        = 3 + lang.length + (a.length + 1) := by
      simp [List.length_append, h3]
      omega
    rw [ht4, ← hP, List.drop_left]
  have htake : (pystrip text).length - 4 - (3 + lang.length + (a.length + 1))
      = mid.length := by
    omega
  unfold strip_markdown_wrapper sanitizeStripped
  rw [if_neg htne]
  simp only [hopen, hclose, hlang', hfst, eq_self_iff_true, if_true]
  rw [if_pos hstart_le, hdropstart, htake, List.take_left]

/-- Inverse of `langLen`: a `some` answer exhibits the language word. -/
theorem langLen_eq_some {l : List Char} {k : Nat} (h : langLen l = some k) :
    ∃ lang, (lang = "markdown".data ∨ lang = "md".data ∨ lang = []) ∧
      lang.length = k ∧ l = lang ++ l.drop k ∧ hasWsNl (l.drop k) = true := by
  unfold langLen at h
  split_ifs at h with hA hB hC
  · rw [Bool.and_eq_true] at hA
    obtain ⟨h1, h2⟩ := hA
    have hk : 8 = k := by simpa using h
    subst hk
    refine ⟨"markdown".data, Or.inl rfl, rfl, ?_, h2⟩
    simpa using startsWithLit_eq_append h1
  · rw [Bool.and_eq_true] at hB
    obtain ⟨h1, h2⟩ := hB
    have hk : 2 = k := by simpa using h
    subst hk
    refine ⟨"md".data, Or.inr (Or.inl rfl), rfl, ?_, h2⟩
    simpa using startsWithLit_eq_append h1
  · have hk : 0 = k := by simpa using h
    subst hk
    exact ⟨[], Or.inr (Or.inr rfl), rfl, by simp, by simpa using hC⟩

/-- Inverse of `closeMatch` on stripped text: the text ends with a newline
and three backticks. -/
theorem closeMatch_stripped {x : List Char} (h : closeMatch (pystrip x) = true) :
    ∃ y, pystrip x = y ++ '\n' :: ("```".data) ∧
      y.length = (pystrip x).length - 4 := by
  cases hrev : (pystrip x).reverse with
  | nil =>
      unfold closeMatch at h
      rw [hrev] at h
      simp [startsWithLit, List.dropWhile] at h
  | cons e es =>
      have he : (pystrip x).getLast? = some e := by
        rw [← List.head?_reverse, hrev]; rfl
      have hens : isPySpace e = false := pystrip_getLast_false he
      unfold closeMatch at h
      rw [hrev, dropWhile_eq_self_of_head List.head?_cons hens] at h
      have hsw := startsWithLit_eq_append h
      have h2 : pystrip x = (e :: es).reverse := by
        rw [← hrev, List.reverse_reverse]
      have hty : pystrip x = ((e :: es).drop 4).reverse ++ '\n' :: ("```".data) := by
        conv_lhs => rw [h2, hsw]
        rw [List.reverse_append]
        rfl
      refine ⟨((e :: es).drop 4).reverse, hty, ?_⟩
      have hl := congrArg List.length hty
      simp only [List.length_append, List.length_cons, List.length_nil] at hl
      omega

/-- Negative case: when the stripped input is not a complete wrapper, the
sanitizer returns the stripped input unchanged. -/
theorem sanitize_no_wrap {text : List Char}
    (h : ∀ lang a mid, ¬ WrapDecomp (pystrip text) lang a mid) :
    strip_markdown_wrapper text = pystrip text := by
  by_cases htext : text = []
  · subst htext; rfl
  · unfold strip_markdown_wrapper sanitizeStripped
    rw [if_neg htext]
    split
    next hopen =>
      split
      next hcl =>
        split
        next => rfl
        next k hk =>
          split
          next => rfl
          next p hp =>
            split
            next hle =>
              exfalso
              -- reconstruct a wrapper decomposition and contradict `h`
              obtain ⟨lang, hlang, hlk, hlpre, _⟩ := langLen_eq_some hk
              obtain ⟨a, r, har, hp1, hamem⟩ := firstNlEnd_eq_some hp
              obtain ⟨y, hy, hylen⟩ := closeMatch_stripped hcl
              have hpre : startsWithLit ("```".data) (pystrip text) = true := by
                have h1' : openMatch (pystrip text) = true := hopen
                unfold openMatch at h1'
                rw [Bool.and_eq_true] at h1'
                exact h1'.1
              have ht3 : pystrip text = ("```".data) ++ (pystrip text).drop 3 := by
                simpa using startsWithLit_eq_append hpre
              have hdd : ((pystrip text).drop 3).drop k = (pystrip text).drop (3 + k) :=
                List.drop_drop k 3 _
              -- the text up to the first newline after the fence marker
              have htfull : pystrip text
                  = (("```".data ++ lang) ++ a ++ ['\n']) ++ r := by
                conv_lhs => rw [ht3]
                conv_lhs => rw [hlpre]
                rw [hdd, har]
                simp [List.append_assoc]
              have hprelen : (("```".data ++ lang) ++ a ++ ['\n']).length = 3 + k + p := by
                have h3 : ("```".data).length = 3 := rfl
                simp [List.length_append, h3, hlk]
                omega
              have hple : 3 + k + p ≤ y.length := by omega
              -- `r` both is the tail of the full text and carries the closing fence
              have hr1 : r = (pystrip text).drop (3 + k + p) := by
                conv_rhs => rw [htfull, ← hprelen]
                rw [List.drop_left]
              have hr2 : (pystrip text).drop (3 + k + p)
                  = y.drop (3 + k + p) ++ '\n' :: ("```".data) := by
                conv_lhs => rw [hy]
                rw [List.drop_append_of_le_length hple]
              refine h lang a (y.drop (3 + k + p)) ⟨hlang, hamem, ?_⟩
              rw [htfull, hr1, hr2]
              simp [List.append_assoc]
            next => rfl
      next => rfl
    next => rfl

/-! ## `specWrappedB` is the decidable face of `WrapDecomp` -/

theorem drop_takeWhile_length (p : Char → Bool) (l : List Char) :
    l.drop (l.takeWhile p).length = l.dropWhile p := by
  induction l with
  | nil => rfl
  | cons c cs ih =>
      by_cases hc : p c = true
      · simp [List.takeWhile_cons, List.dropWhile_cons, hc, ih]
      · simp [List.takeWhile_cons, List.dropWhile_cons, hc]

theorem specTail_eq_true {l : List Char} (h : specTail l = true) :
    ∃ a mid, l = a ++ '\n' :: (mid ++ '\n' :: ("```".data)) ∧
      ∀ c ∈ a, isPySpace c = true ∧ c ≠ '\n' := by
  simp only [specTail, Bool.and_eq_true] at h
  obtain ⟨h1, h2⟩ := h
  rw [drop_takeWhile_length] at h1 h2
  have hD := startsWithLit_eq_append h1
  obtain ⟨y, hy⟩ := endsWithLit_eq_append h2
  refine ⟨l.takeWhile (fun c => isPySpace c && !(c == '\n')), y, ?_, ?_⟩
  · conv_lhs => rw [← List.takeWhile_append_dropWhile
      (fun c => isPySpace c && !(c == '\n')) l]
    congr 1
    rw [hD]
    simp only [List.singleton_append, List.cons.injEq, true_and]
    simpa using hy
  · intro c hc
    have := List.mem_takeWhile_imp hc
    simp only [Bool.and_eq_true, Bool.not_eq_eq_eq_not, Bool.not_true] at this
    refine ⟨this.1, ?_⟩
    intro hcn
    rw [hcn] at this
    simpa using this.2

theorem specTail_decomp {a : List Char}
    (ha : ∀ c ∈ a, isPySpace c = true ∧ c ≠ '\n') (mid : List Char) :
    specTail (a ++ '\n' :: (mid ++ '\n' :: ("```".data))) = true := by
  have htw : (a ++ '\n' :: (mid ++ '\n' :: ("```".data))).takeWhile
      (fun c => isPySpace c && !(c == '\n')) = a := by
    refine takeWhile_run ?_ (by simp) _
    intro c hc
    obtain ⟨h1, h2⟩ := ha c hc
    simp [h1, h2]
  have hdd : (a ++ '\n' :: (mid ++ '\n' :: ("```".data))).drop a.length
      = '\n' :: (mid ++ '\n' :: ("```".data)) := by
    exact List.drop_left a ('\n' :: (mid ++ '\n' :: ("```".data)))
  simp only [specTail, htw, hdd]
  simp [startsWithLit, endsWithLit_append mid ('\n' :: ("```".data))]

/-- The executable spec-side wrapper test agrees with the existence of a
wrapper decomposition. -/
theorem specWrappedB_iff (t : List Char) :
    specWrappedB t = true ↔ ∃ lang a mid, WrapDecomp t lang a mid := by
  constructor
  · intro h
    unfold specWrappedB at h
    rw [Bool.and_eq_true] at h
    obtain ⟨hpre, hbr⟩ := h
    simp only [Bool.or_eq_true, Bool.and_eq_true] at hbr
    have ht0 : t = ("```".data) ++ t.drop 3 := by
      simpa using startsWithLit_eq_append hpre
    rcases hbr with (⟨hmd, htail⟩ | ⟨hmd, htail⟩) | htail
    · obtain ⟨a, mid, hsplit, hmem⟩ := specTail_eq_true htail
      have hmd' : t.drop 3 = ("markdown".data) ++ (t.drop 3).drop 8 := by
        simpa using startsWithLit_eq_append hmd
      rw [List.drop_drop] at hmd'
      norm_num at hmd'
      refine ⟨"markdown".data, a, mid, Or.inl rfl, hmem, ?_⟩
      conv_lhs => rw [ht0, hmd', hsplit]
      simp [List.append_assoc]
    · obtain ⟨a, mid, hsplit, hmem⟩ := specTail_eq_true htail
      have hmd' : t.drop 3 = ("md".data) ++ (t.drop 3).drop 2 := by
        simpa using startsWithLit_eq_append hmd
      rw [List.drop_drop] at hmd'
      norm_num at hmd'
      refine ⟨"md".data, a, mid, Or.inr (Or.inl rfl), hmem, ?_⟩
      conv_lhs => rw [ht0, hmd', hsplit]
      simp [List.append_assoc]
    · obtain ⟨a, mid, hsplit, hmem⟩ := specTail_eq_true htail
      refine ⟨[], a, mid, Or.inr (Or.inr rfl), hmem, ?_⟩
      conv_lhs => rw [ht0, hsplit]
      simp [List.append_assoc]
  · rintro ⟨lang, a, mid, hlang, hmem, ht⟩
    have ht1 : t = ("```".data) ++ (lang ++ (a ++ '\n' :: (mid ++ '\n' :: ("```".data)))) := by
      rw [ht]; simp [List.append_assoc]
    have hpre : startsWithLit ("```".data) t = true := by
      rw [ht1]; exact startsWithLit_append _ _
    have hd3 : t.drop 3 = lang ++ (a ++ '\n' :: (mid ++ '\n' :: ("```".data))) := by
      have h3 : ("```".data).length = 3 := rfl
      rw [ht1, ← h3, List.drop_left]
    have htail := specTail_decomp hmem mid
    simp only [specWrappedB, Bool.and_eq_true, Bool.or_eq_true]
    refine ⟨hpre, ?_⟩
    rcases hlang with rfl | rfl | rfl
    · refine Or.inl (Or.inl ⟨?_, ?_⟩)
      · rw [hd3]; exact startsWithLit_append _ _
      · have hd11 : t.drop 11 = a ++ '\n' :: (mid ++ '\n' :: ("```".data)) := by
          have h11 : ("```".data ++ "markdown".data).length = 11 := rfl
          have ht2 : t = ("```".data ++ "markdown".data)
              ++ (a ++ '\n' :: (mid ++ '\n' :: ("```".data))) := by
            rw [ht]; simp [List.append_assoc]
          rw [ht2, ← h11, List.drop_left]
        rw [hd11]; exact htail
    · refine Or.inl (Or.inr ⟨?_, ?_⟩)
      · rw [hd3]; exact startsWithLit_append _ _
      · have hd5 : t.drop 5 = a ++ '\n' :: (mid ++ '\n' :: ("```".data)) := by
          have h5 : ("```".data ++ "md".data).length = 5 := rfl
          have ht2 : t = ("```".data ++ "md".data)
              ++ (a ++ '\n' :: (mid ++ '\n' :: ("```".data))) := by
            rw [ht]; simp [List.append_assoc]
          rw [ht2, ← h5, List.drop_left]
        rw [hd5]; exact htail
    · refine Or.inr ?_
      rw [hd3]
      simpa using htail

/-- The sanitizer's output is already stripped. -/
theorem pystrip_sanitize (x : List Char) :
    pystrip (strip_markdown_wrapper x) = strip_markdown_wrapper x := by
  by_cases hx : x = []
  · subst hx; rfl
  · unfold strip_markdown_wrapper
    rw [if_neg hx]
    unfold sanitizeStripped
    split
    next =>
      split
      next =>
        split
        next => exact pystrip_idem _
        next k hk =>
          split
          next => exact pystrip_idem _
          next p hp =>
            split
            next => exact pystrip_idem _
            next => exact pystrip_idem _
      next => exact pystrip_idem _
    next => exact pystrip_idem _

/-! ## Claim C1 -/

/-- C1, counterexample to the claim as stated.  First part: at the input
`"```\n```"` the trimmed text does start with three backticks followed by a
line break and does end with a line break followed by three backticks, yet
the code returns the text unchanged rather than the (empty) trimmed content
strictly between the two fences — the fences overlap on the single newline
and the extraction pattern cannot match.  Second part: at `"``` \nfoo\n```"`
the trimmed text does *not* start with three backticks (optionally a
language word) followed immediately by a line break — there is a blank
before the newline — so the claim's "otherwise" clause says the text is
returned unchanged, yet the code accepts the fence (its pattern allows
`\s*` before the newline) and returns `"foo"`. -/
theorem C1_counterexample :
    (pystrip ("```\n```".data) = "```\n```".data ∧
     startsWithLit ("```\n".data) ("```\n```".data) = true ∧
     endsWithLit ("\n```".data) ("```\n```".data) = true ∧
     strip_markdown_wrapper ("```\n```".data) = "```\n```".data ∧
     ("```\n```".data) ≠ ([] : List Char)) ∧
    (pystrip ("``` \nfoo\n```".data) = "``` \nfoo\n```".data ∧
     startsWithLit ("```\n".data) ("``` \nfoo\n```".data) = false ∧
     startsWithLit ("```markdown\n".data) ("``` \nfoo\n```".data) = false ∧
     startsWithLit ("```md\n".data) ("``` \nfoo\n```".data) = false ∧
     strip_markdown_wrapper ("``` \nfoo\n```".data) = "foo".data ∧
     ("foo".data) ≠ "``` \nfoo\n```".data) := by
  decide

/-- C1 (amended): the input is first trimmed; if the trimmed text
decomposes as three backticks, optionally the literal word `markdown` or
`md`, optional blank (non-newline) whitespace and a line break, then
content, then a line break and three final backticks — opening and closing
line breaks being distinct characters — the result is that content trimmed;
otherwise (`specWrappedB` false, equivalently no such decomposition exists)
the trimmed text is returned unchanged. -/
theorem C1_wrapper_extraction (text : List Char) :
    (∀ lang a mid, WrapDecomp (pystrip text) lang a mid →
        strip_markdown_wrapper text = pystrip mid) ∧
    (specWrappedB (pystrip text) = false →
        strip_markdown_wrapper text = pystrip text) := by
  constructor
  · intro lang a mid hd
    exact sanitize_wrap hd
  · intro hb
    refine sanitize_no_wrap ?_
    intro lang a mid hd
    have h := (specWrappedB_iff (pystrip text)).2 ⟨lang, a, mid, hd⟩
    rw [hb] at h
    exact Bool.false_ne_true h

/-- C1, witness: both branches of `C1_wrapper_extraction` at concrete
inputs. -/
theorem C1_witness :
    strip_markdown_wrapper ("```markdown\nHello review\n```".data)
      = "Hello review".data ∧
    strip_markdown_wrapper ("plain text".data) = "plain text".data := by
  constructor
  · have h := (C1_wrapper_extraction ("```markdown\nHello review\n```".data)).1
      ("markdown".data) [] ("Hello review".data) (by decide)
    exact h.trans (by decide)
  · have h := (C1_wrapper_extraction ("plain text".data)).2 (by decide)
    exact h.trans (by decide)

/-! ## Claim C2 -/

/-- C2: the sanitizer removes exactly one outermost wrapper layer and never
recurses: for any content `mid` with no leading/trailing whitespace —
including content containing nested fenced blocks such as an inner
```` ```python ```` or ```` ```markdown ```` block — wrapping it in an
outer ```` ```markdown ```` fence and sanitizing returns `mid` verbatim:
every inner fence and its content survive unchanged. -/
theorem C2_outer_wrapper_only {mid : List Char} (h : pystrip mid = mid) :
    strip_markdown_wrapper (("```markdown\n".data) ++ mid ++ ("\n```".data)) = mid := by
  have hstr : pystrip (("```markdown\n".data) ++ mid ++ ("\n```".data))
      = ("```markdown\n".data) ++ mid ++ ("\n```".data) := by
    apply pystrip_eq_self
    · intro c hc
      have hh : ((("```markdown\n".data) ++ mid ++ ("\n```".data))).head? = some '`' := rfl
      rw [hh] at hc
      simp only [Option.some.injEq] at hc
      rw [← hc]
      decide
    · intro c hc
      rw [List.getLast?_append_of_ne_nil _ (by decide : ("\n```".data) ≠ [])] at hc
      have hh : ("\n```".data).getLast? = some '`' := rfl
      rw [hh] at hc
      simp only [Option.some.injEq] at hc
      rw [← hc]
      decide
  have hd : WrapDecomp (pystrip (("```markdown\n".data) ++ mid ++ ("\n```".data)))
      ("markdown".data) [] mid := by
    refine ⟨Or.inl rfl, by simp, ?_⟩
    rw [hstr]
    simp [List.append_assoc]
  exact (sanitize_wrap hd).trans h

/-- C2, witness: an outer wrapper around content holding a nested
```` ```python ```` block is stripped to exactly that content. -/
theorem C2_witness :
    strip_markdown_wrapper
        ("```markdown\nIntro\n```python\nprint(1)\n```\nOutro\n```".data)
      = "Intro\n```python\nprint(1)\n```\nOutro".data := by
  have h := @C2_outer_wrapper_only
    ("Intro\n```python\nprint(1)\n```\nOutro".data) (by decide)
  exact (by decide : ("```markdown\nIntro\n```python\nprint(1)\n```\nOutro\n```".data)
      = ("```markdown\n".data) ++ ("Intro\n```python\nprint(1)\n```\nOutro".data)
        ++ ("\n```".data)) ▸ h

/-! ## Claim C3 -/

/-- C3, counterexample: the sanitizer is not idempotent on all inputs.  A
doubly wrapped input loses its outer layer on the first pass, leaving a
complete wrapper that the second pass also strips. -/
theorem C3_counterexample :
    strip_markdown_wrapper
        (strip_markdown_wrapper ("```markdown\n```markdown\nfoo\n```\n```".data))
      ≠ strip_markdown_wrapper ("```markdown\n```markdown\nfoo\n```\n```".data) := by
  decide

/-- C3 (amended): the sanitizer is idempotent on every input whose
sanitized result is not itself a complete wrapper (in particular on
already-clean text and on text whose single wrapper was removed):
`sanitize (sanitize x) = sanitize x` whenever `specWrappedB (sanitize x)`
is false. -/
theorem C3_idempotent_on_clean (x : List Char)
    (h : specWrappedB (strip_markdown_wrapper x) = false) :
    strip_markdown_wrapper (strip_markdown_wrapper x) = strip_markdown_wrapper x := by
  have hs : pystrip (strip_markdown_wrapper x) = strip_markdown_wrapper x :=
    pystrip_sanitize x
  have hnw : ∀ lang a mid,
      ¬ WrapDecomp (pystrip (strip_markdown_wrapper x)) lang a mid := by
    intro lang a mid hd
    rw [hs] at hd
    have hb := (specWrappedB_iff _).2 ⟨lang, a, mid, hd⟩
    rw [h] at hb
    exact Bool.false_ne_true hb
  exact (sanitize_no_wrap hnw).trans hs

/-- C3, witness: idempotence at a concrete wrapped input whose sanitized
output is clean. -/
theorem C3_witness :
    strip_markdown_wrapper
        (strip_markdown_wrapper ("```markdown\nAll good\n```".data))
      = strip_markdown_wrapper ("```markdown\nAll good\n```".data) :=
  C3_idempotent_on_clean ("```markdown\nAll good\n```".data) (by decide)

/-! ## Claim C4 -/

/-- C4: the sanitizer never raises.  Every non-string value (of either
truthiness) is returned unchanged, the empty string is returned unchanged,
and every other string input yields a string result — the function is total
and type-preserving. -/
theorem C4_never_raises :
    (∀ b, strip_markdown_wrapper_py (PyVal.nonStr b) = PyVal.nonStr b) ∧
    strip_markdown_wrapper_py (PyVal.str []) = PyVal.str [] ∧
    (∀ s, ∃ r, strip_markdown_wrapper_py (PyVal.str s) = PyVal.str r) :=
  ⟨fun _ => rfl, rfl, fun s => ⟨strip_markdown_wrapper s, rfl⟩⟩

/-! ## Claim C10 -/

/-- C10: for every string input the sanitizer's output is a contiguous
substring of the input (characters are only deleted from the two ends,
never inserted, reordered or altered), and the output carries no leading
and no trailing whitespace. -/
theorem C10_contiguous_trimmed (s : List Char) :
    SubSegment (strip_markdown_wrapper s) s ∧
    (∀ c, (strip_markdown_wrapper s).head? = some c → isPySpace c = false) ∧
    (∀ c, (strip_markdown_wrapper s).getLast? = some c → isPySpace c = false) := by
  refine ⟨?_, ?_, ?_⟩
  · unfold strip_markdown_wrapper
    by_cases hs : s = []
    · rw [if_pos hs]
      exact SubSegment.refl _
    · rw [if_neg hs]
      unfold sanitizeStripped
      have base : SubSegment (pystrip s) s := pystrip_subSegment s
      split
      next =>
        split
        next =>
          split
          next => exact base
          next k hk =>
            split
            next => exact base
            next p hp =>
              split
              next hle =>
                exact SubSegment.trans
                  (SubSegment.trans (pystrip_subSegment _) (slice_subSegment _ _ _))
                  base
              next => exact base
        next => exact base
      next => exact base
  · intro c hc
    rw [← pystrip_sanitize s] at hc
    exact pystrip_head_false hc
  · intro c hc
    rw [← pystrip_sanitize s] at hc
    exact pystrip_getLast_false hc

/-! ## Claim C5 -/

/-- C5: for every provider identifier that lower-cases to `github` or
`gitlab`, the factory returns the corresponding adapter, whose
`platform_name()` is the canonical `GitHub` / `GitLab` (the class name with
the `Platform` suffix removed); for every other identifier it fails with
the unsupported-provider error and constructs no adapter. -/
theorem C5_factory_dispatch (provider : List Char) :
    (pyLower provider = "github".data →
        get_platform provider = Except.ok Platform.github ∧
        get_platform_name Platform.github = "GitHub".data) ∧
    (pyLower provider = "gitlab".data →
        get_platform provider = Except.ok Platform.gitlab ∧
        get_platform_name Platform.gitlab = "GitLab".data) ∧
    (pyLower provider ≠ "github".data → pyLower provider ≠ "gitlab".data →
        get_platform provider
          = Except.error (ReviewError.unsupportedProvider provider)) := by
  refine ⟨?_, ?_, ?_⟩
  · intro h
    exact ⟨by simp [get_platform, h], by decide⟩
  · intro h
    refine ⟨?_, by decide⟩
    have hng : pyLower provider ≠ "github".data := by
      rw [h]; decide
    simp [get_platform, h, hng]
  · intro h1 h2
    simp [get_platform, h1, h2]

/-- C5, witness: mixed-case identifiers dispatch to the right adapters with
the canonical names; an unknown identifier fails. -/
theorem C5_witness :
    (get_platform ("GitHub".data) = Except.ok Platform.github ∧
     get_platform_name Platform.github = "GitHub".data) ∧
    (get_platform ("GITLAB".data) = Except.ok Platform.gitlab ∧
     get_platform_name Platform.gitlab = "GitLab".data) ∧
    get_platform ("bitbucket".data)
      = Except.error (ReviewError.unsupportedProvider ("bitbucket".data)) :=
  ⟨(C5_factory_dispatch ("GitHub".data)).1 (by decide),
   (C5_factory_dispatch ("GITLAB".data)).2.1 (by decide),
   (C5_factory_dispatch ("bitbucket".data)).2.2 (by decide) (by decide)⟩

/-! ## Claim C6 -/

/-- C6: on every valid (fully populated) GitLab payload, the GitLab
adapter's `get_pr_info` output has `source_branch` equal to the payload's
`source_branch`, `target_branch` equal to `target_branch`, `author_login`
equal to `author.username`, `body` equal to `description` and `title` equal
to `title`. -/
theorem C6_gitlab_field_mapping (t d u sb tb : List Char) :
    gitlab_get_pr_info
        { title := some t, description := some d, author := some { username := some u },
          source_branch := some sb, target_branch := some tb }
      = { title := t, body := d, author_login := u,
          source_branch := sb, target_branch := tb } :=
  rfl

/-! ## Claim C7 -/

/-- C7, counterexample to the claim as stated: the GitHub adapter performs
no empty-string substitution — it returns the parsed payload unchanged, so
on a payload with an absent `body` the output's `body` is absent rather
than the empty string. -/
theorem C7_counterexample :
    github_get_pr_info
        { title := none, body := none, author := none,
          headRefName := none, baseRefName := none }
      = { title := none, body := none, author := none,
          headRefName := none, baseRefName := none } ∧
    (github_get_pr_info
        { title := none, body := none, author := none,
          headRefName := none, baseRefName := none }).body ≠ some [] := by
  exact ⟨rfl, by decide⟩

/-- C7 (amended): the GitLab adapter populates all five normalized fields,
substituting the empty string for every absent upstream field and
preserving every present one, never raising; the GitHub adapter returns the
parsed upstream payload unchanged, so its output carries exactly the fields
the CLI reply supplies, with no empty-string substitution. -/
theorem C7_field_population :
    (∀ mr : GitLabMRJson,
      ((mr.title = none → (gitlab_get_pr_info mr).title = []) ∧
        (∀ v, mr.title = some v → (gitlab_get_pr_info mr).title = v)) ∧
      ((mr.description = none → (gitlab_get_pr_info mr).body = []) ∧
        (∀ v, mr.description = some v → (gitlab_get_pr_info mr).body = v)) ∧
      ((mr.author = none → (gitlab_get_pr_info mr).author_login = []) ∧
        (∀ au, mr.author = some au → au.username = none →
            (gitlab_get_pr_info mr).author_login = []) ∧
        (∀ au v, mr.author = some au → au.username = some v →
            (gitlab_get_pr_info mr).author_login = v)) ∧
      ((mr.source_branch = none → (gitlab_get_pr_info mr).source_branch = []) ∧
        (∀ v, mr.source_branch = some v → (gitlab_get_pr_info mr).source_branch = v)) ∧
      ((mr.target_branch = none → (gitlab_get_pr_info mr).target_branch = []) ∧
        (∀ v, mr.target_branch = some v → (gitlab_get_pr_info mr).target_branch = v))) ∧
    (∀ p : GitHubPRJson, github_get_pr_info p = p) := by
  constructor
  · intro mr
    refine ⟨⟨?_, ?_⟩, ⟨?_, ?_⟩, ⟨?_, ?_, ?_⟩, ⟨?_, ?_⟩, ⟨?_, ?_⟩⟩ <;>
      intros <;> simp_all [gitlab_get_pr_info]
  · intro p
    rfl

/-- C7, witness: a partially absent GitLab payload gets empty strings for
the absent fields and the given values for the present ones. -/
theorem C7_witness :
    (gitlab_get_pr_info
        { title := none, description := some ("desc".data), author := some { username := none },
          source_branch := none, target_branch := some ("main".data) }).title = [] ∧
    (gitlab_get_pr_info
        { title := none, description := some ("desc".data), author := some { username := none },
          source_branch := none, target_branch := some ("main".data) }).body = "desc".data ∧
    (gitlab_get_pr_info
        { title := none, description := some ("desc".data), author := some { username := none },
          source_branch := none, target_branch := some ("main".data) }).author_login = [] := by
  refine ⟨(C7_field_population.1 _).1.1 rfl,
    (C7_field_population.1 _).2.1.2 ("desc".data) rfl,
    (C7_field_population.1 _).2.2.1.2.1 { username := none } rfl rfl⟩

/-! ## Claim C8 -/

/-- C8: the GitLab adapter's `setup_auth` issues, when a (truthy)
personal-access token is supplied, exactly one `glab auth login` call
carrying that token and the configurable host (`CI_SERVER_HOST`, default
`gitlab.com`); with no token it performs no CLI call at all and returns
normally. -/
theorem C8_gitlab_auth (env : GitLabAuthEnv) (loginOk : Bool) :
    (∀ tok, env.gitlab_token = some tok → tok ≠ [] →
        (gitlab_setup_auth env loginOk).1
          = [GlabCall.authLogin tok (env.ci_server_host.getD ("gitlab.com".data))]) ∧
    (envTruthy env.gitlab_token = false →
        gitlab_setup_auth env loginOk = ([], Except.ok ())) := by
  constructor
  · intro tok htok hne
    have ht : envTruthy (some tok) = true := by
      simp [envTruthy, hne]
    simp [gitlab_setup_auth, htok, ht]
  · intro h
    simp [gitlab_setup_auth, h]

/-- C8, witness: both authentication modes at concrete environments. -/
theorem C8_witness :
    (gitlab_setup_auth
        { gitlab_token := some ("tok".data),
          ci_server_host := some ("gitlab.example.com".data) } true).1
      = [GlabCall.authLogin ("tok".data) ("gitlab.example.com".data)] ∧
    gitlab_setup_auth { gitlab_token := none, ci_server_host := none } true
      = ([], Except.ok ()) :=
  ⟨(C8_gitlab_auth
      { gitlab_token := some ("tok".data),
        ci_server_host := some ("gitlab.example.com".data) } true).1
      ("tok".data) rfl (by decide),
   (C8_gitlab_auth { gitlab_token := none, ci_server_host := none } true).2 rfl⟩

/-! ## Claim C9 -/

/-- C9: the GitHub adapter's `setup_auth` prefers a supplied (truthy)
token — succeeding with method `token` and no CLI call; without one it
consults `gh auth status`; and it raises if and only if no token is
supplied and no valid session is confirmed (non-zero status or missing
CLI). -/
theorem C9_github_auth (tok : Option (List Char)) (status : GhStatusOutcome) :
    (envTruthy tok = true →
        github_setup_auth tok status = ([], Except.ok AuthMethod.token)) ∧
    (envTruthy tok = false →
        (github_setup_auth tok status).1 = [GhCall.authStatus]) ∧
    ((∃ e, (github_setup_auth tok status).2 = Except.error e) ↔
        (envTruthy tok = false ∧ status ≠ GhStatusOutcome.exitZero)) := by
  refine ⟨?_, ?_, ?_⟩
  · intro h
    simp [github_setup_auth, h]
  · intro h
    simp [github_setup_auth, h]
  · constructor
    · rintro ⟨e, he⟩
      by_cases h : envTruthy tok = true
      · simp [github_setup_auth, h] at he
      · refine ⟨by simpa using h, ?_⟩
        intro hst
        subst hst
        simp [github_setup_auth, h] at he
    · rintro ⟨h1, h2⟩
      cases status with
      | exitZero => exact absurd rfl h2
      | exitNonZero =>
          exact ⟨GhAuthError.noAuthAvailable, by simp [github_setup_auth, h1]⟩
      | notInstalled =>
          exact ⟨GhAuthError.cliNotInstalled, by simp [github_setup_auth, h1]⟩

/-- C9, witness: the three regimes at concrete inputs — token present,
valid session, and neither. -/
theorem C9_witness :
    github_setup_auth (some ("tok".data)) GhStatusOutcome.exitNonZero
      = ([], Except.ok AuthMethod.token) ∧
    (github_setup_auth none GhStatusOutcome.exitZero).1 = [GhCall.authStatus] ∧
    (∃ e, (github_setup_auth none GhStatusOutcome.exitNonZero).2 = Except.error e) :=
  ⟨(C9_github_auth (some ("tok".data)) GhStatusOutcome.exitNonZero).1 (by decide),
   (C9_github_auth none GhStatusOutcome.exitZero).2.1 rfl,
   ((C9_github_auth none GhStatusOutcome.exitNonZero).2.2).2 ⟨rfl, by decide⟩⟩

end PRAgent
